import Mathlib

/-!
# MRCP run driver (`src/mrcp_g4/MRCP.cc`)

A shallow embedding of `main` of the MRCP Geant4 driver: the option parsing loop,
the defaulting of the output path and of the phantom path, and the choice between
batch and interactive mode.  The calls by which `main` acts on the Geant4 toolkit or on
the error stream are recorded as a trace of events, in program order; the toolkit itself
is not modelled.

Conventions.
* `args` is the argument vector after the program name: `argv[1] .. argv[argc-1]`,
  so `argc = args.length + 1`.  `argv[argc]` is the null pointer.
* `mt` says whether the build defines `G4MULTITHREADED`.
* `env` is the result of `getenv("PHANTOM")`: `none` for a null pointer.
* `conv` stands for the toolkit function `G4UIcommand::ConvertToInt`, a conversion
  without side effect: it is evaluated on every `-t` value the loop reaches (line 103),
  also in a run that is rejected later, and it is not an event of the trace.  Neither
  are the reads `getenv` and `time`.
* Paths are POSIX paths, held as the strings they were built from.
* Every call into the toolkit is taken to return; what it does is not described.
* Using the null pointer `argv[argc]` as a C string has no defined behaviour: `main`
  then has no result (`none`).
-/

set_option autoImplicit false

namespace MRCP

/-! ## `std::filesystem::path` on POSIX -/

/-- The characters of the last component of a path, reversed: everything after the
last `/` (`path::filename()`), read from the end of the path. -/
def revFilename (p : List Char) : List Char :=
  p.reverse.takeWhile (fun c => c != '/')

/-- Length of `path::extension()`: the suffix of the filename that starts at its last
period, unless the filename has no period, its only period is the leading one, or
the filename is `.` or `..` (C++17 [fs.path.decompose]). -/
def extensionLength (p : List Char) : Nat :=
  let name := revFilename p
  let afterDot := name.takeWhile (fun c => c != '.')
  if afterDot.length = name.length then 0            -- no period at all
  else if afterDot.length + 1 = name.length then 0   -- the last period is the leading one
  else if name = ['.', '.'] then 0                   -- the filename `..`
  else afterDot.length + 1

/-- Embedding of `path::replace_extension(replacement)` (C++17 [fs.path.modifiers]):
the extension, if any, is removed; a period is appended when the replacement is
non-empty and does not begin with one; then the replacement is appended. -/
def replace_extension (p : String) (replacement : String) : String :=
  let stem := p.data.take (p.data.length - extensionLength p.data)
  let dot : List Char :=
    match replacement.data with
    | [] => []
    | c :: _ => if c = '.' then [] else ['.']
  String.mk (stem ++ dot ++ replacement.data)

/-! ## Program state and observable events -/

/-- The variables `main` parses its arguments into.  `OUTPUT_FILENAME` is the global
of the translation unit, the others are locals of `main`; `nThreads` exists only in
multithreaded builds and is neither written nor read in the others. -/
structure Vars where
  OUTPUT_FILENAME : String
  macro_FileName : String
  mainPhantom_FilePath : String
  nThreads : Int
  session : String
  deriving DecidableEq

/-- The three user initialisations registered with the run manager. -/
inductive UserInit where
  | detector
  | physics
  | action
  deriving DecidableEq

/-- What `main` does to the toolkit and to the error stream: one constructor per call
that prints, constructs, registers, initialises, commands, starts or deletes something.
Conversions and reads (`G4UIcommand::ConvertToInt`, `getenv`, `time`) are not events. -/
inductive Event where
  | printUsage
  | setTheEngine
  | setTheSeed
  | newMTRunManager
  | setNumberOfThreads (n : Int)
  | newRunManager
  | newDetectorConstruction (path : String)
  | newPhysicsList
  | newActionInitialization
  | setUserInitialization (what : UserInit)
  | newVisExecutive
  | visInitialize
  | applyCommand (command : String)
  | newUIExecutive (session : String)
  | sessionStart
  | deleteUI
  | deleteVisManager
  | deleteRunManager
  deriving DecidableEq

/-- A completed call of `main`: its return value, the events it caused, and the value
the global `OUTPUT_FILENAME` holds when it returns. -/
structure Run where
  status : Int
  trace : List Event
  OUTPUT_FILENAME : String
  deriving DecidableEq

/-! ## Option parsing (lines 85-116) -/

/-- The values before parsing (lines 81, 86-94): `OUTPUT_FILENAME` and `macro_FileName`
are default-constructed (empty) paths, and the phantom path is `$PHANTOM` whenever
`getenv` returns a non-null pointer. -/
def initVars (env : Option String) : Vars :=
  { OUTPUT_FILENAME := ""
    macro_FileName := ""
    mainPhantom_FilePath :=
      match env with
      | some v => v
      | none => "../../phantoms/AM_MRCP_skin"
    nThreads := 1
    session := "tcsh" }

/-- How a pass through the loop body, or the loop, ends. -/
inductive Parse where
  /-- the body (or loop) ran to its end with these values -/
  | next (v : Vars)
  /-- `PrintUsage(); return 1;` was reached with these values -/
  | usage (v : Vars)
  /-- `argv[argc]`, a null pointer, was used as a C string: undefined behaviour -/
  | undefined
  deriving DecidableEq

/-- Assignment from `argv[i+1]`: defined only when that pointer is not null. -/
def assign (value : Option String) (set : String → Vars) : Parse :=
  match value with
  | some s => Parse.next (set s)
  | none => Parse.undefined

/-- The loop body (lines 99-110) for `argv[i] = flag` and `argv[i+1] = value`,
where `value = none` is the null pointer `argv[argc]`. -/
def parseStep (mt : Bool) (conv : String → Int) (flag : String) (value : Option String)
    (v : Vars) : Parse :=
  if flag = "-m" then assign value (fun s => { v with macro_FileName := s })
  else if flag = "-o" then assign value (fun s => { v with OUTPUT_FILENAME := s })
  else if flag = "-p" then assign value (fun s => { v with mainPhantom_FilePath := s })
  else if mt = true ∧ flag = "-t" then assign value (fun s => { v with nThreads := conv s })
  else if flag = "-u" then assign value (fun s => { v with session := s })
  else Parse.usage v

/-- The loop `for (i = 1; i < argc; i += 2)` (lines 97-111) over `argv[i..argc-1]`. -/
def parseLoop (mt : Bool) (conv : String → Int) : List String → Vars → Parse
  | [], v => Parse.next v
  | [flag], v => parseStep mt conv flag none v
  | flag :: value :: rest, v =>
    match parseStep mt conv flag (some value) v with
    | Parse.next v1 => parseLoop mt conv rest v1
    | stop => stop

/-- Lines 97-116: the loop, then the test `argc > 11`. -/
def parseArgs (mt : Bool) (conv : String → Int) (env : Option String) (args : List String) :
    Parse :=
  match parseLoop mt conv args (initVars env) with
  | Parse.next v => if args.length + 1 > 11 then Parse.usage v else Parse.next v
  | stop => stop

/-! ## Defaulting of the output path (lines 118-129) -/

/-- The value of `OUTPUT_FILENAME` after lines 120-129. -/
def resolveOutput (v : Vars) : String :=
  if v.OUTPUT_FILENAME = "" then
    if v.macro_FileName ≠ "" then replace_extension v.macro_FileName ".out"
    else "example.out"
  else v.OUTPUT_FILENAME

/-! ## Run assembly and mode selection (lines 132-172) -/

/-- Lines 132-153: random engine, run manager, user initialisations, visualisation. -/
def setupTrace (mt : Bool) (v : Vars) : List Event :=
  [Event.setTheEngine, Event.setTheSeed] ++
  (if mt = true then [Event.newMTRunManager, Event.setNumberOfThreads v.nThreads]
   else [Event.newRunManager]) ++
  [Event.newDetectorConstruction v.mainPhantom_FilePath,
   Event.setUserInitialization UserInit.detector,
   Event.newPhysicsList,
   Event.setUserInitialization UserInit.physics,
   Event.newActionInitialization,
   Event.setUserInitialization UserInit.action,
   Event.newVisExecutive,
   Event.visInitialize]

/-- Lines 155-166: batch mode when the macro path is not empty, else interactive mode. -/
def modeTrace (v : Vars) : List Event :=
  if v.macro_FileName ≠ "" then
    [Event.applyCommand ("/control/execute " ++ v.macro_FileName)]
  else
    [Event.newUIExecutive v.session,
     Event.applyCommand "/control/execute init_vis.mac",
     Event.sessionStart,
     Event.deleteUI]

/-- Lines 169-170. -/
def teardownTrace : List Event :=
  [Event.deleteVisManager, Event.deleteRunManager]

/-- The function `main` (lines 83-173).  `none` is undefined behaviour. -/
def main (mt : Bool) (conv : String → Int) (env : Option String) (args : List String) :
    Option Run :=
  match parseArgs mt conv env args with
  | Parse.undefined => none
  | Parse.usage v =>
    some { status := 1, trace := [Event.printUsage], OUTPUT_FILENAME := v.OUTPUT_FILENAME }
  | Parse.next v =>
    some { status := 0
           trace := setupTrace mt v ++ modeTrace v ++ teardownTrace
           OUTPUT_FILENAME := resolveOutput v }

/-! ## Notions used to state the properties -/

/-- True iff `flag` is one of the flags the loop body tests for: `-m`, `-o`, `-p`, `-u`,
and `-t` when the build is multithreaded. -/
def isRecognized (mt : Bool) (flag : String) : Bool :=
  decide (flag = "-m" ∨ flag = "-o" ∨ flag = "-p" ∨ (mt = true ∧ flag = "-t") ∨ flag = "-u")

/-- The tokens in flag positions, `argv[1]`, `argv[3]`, ... -/
def flagTokens : List String → List String
  | [] => []
  | [f] => [f]
  | f :: _ :: rest => f :: flagTokens rest

/-- The value of the last complete pair `flag value` of an argument list, if any. -/
def lastValue (flag : String) : List String → Option String
  | f :: x :: rest =>
    match lastValue flag rest with
    | some y => some y
    | none => if f = flag then some x else none
  | _ => none

/-- The complete pairs `(flag, value)` of an argument list, in order. -/
def pairsOf : List String → List (String × String)
  | f :: x :: rest => (f, x) :: pairsOf rest
  | _ => []

/-- The pairs of an argument list that come before its first token in a flag position
that is not recognised (all its complete pairs when there is no such token). -/
def acceptedPrefix (mt : Bool) : List String → List String
  | f :: x :: rest => if isRecognized mt f = true then f :: x :: acceptedPrefix mt rest else []
  | _ => []

/-- The paths with which a `DetectorConstruction` is constructed, in order. -/
def detectorPaths : List Event → List String
  | [] => []
  | Event.newDetectorConstruction p :: t => p :: detectorPaths t
  | _ :: t => detectorPaths t

/-- The events of a trace that concern the command interpreter or an interactive
session, in order: the calls of `G4UImanager::ApplyCommand`, and the construction, the
start and the deletion of a `G4UIExecutive`. -/
def uiEvents : List Event → List Event
  | [] => []
  | Event.applyCommand c :: t => Event.applyCommand c :: uiEvents t
  | Event.newUIExecutive s :: t => Event.newUIExecutive s :: uiEvents t
  | Event.sessionStart :: t => Event.sessionStart :: uiEvents t
  | Event.deleteUI :: t => Event.deleteUI :: uiEvents t
  | _ :: t => uiEvents t

/-- The commands applied in batch mode, that is while no interactive session object
exists (`live` says whether one does at the head of the trace). -/
def batchCommandsFrom : Bool → List Event → List String
  | _, [] => []
  | _, Event.newUIExecutive _ :: t => batchCommandsFrom true t
  | _, Event.deleteUI :: t => batchCommandsFrom false t
  | live, Event.applyCommand c :: t =>
    if live = true then batchCommandsFrom live t else c :: batchCommandsFrom live t
  | live, _ :: t => batchCommandsFrom live t

/-- The commands of a run that are applied in batch mode. -/
def batchCommands (t : List Event) : List String :=
  batchCommandsFrom false t

/-! ## The loop body -/

theorem pair_induction {P : List String → Prop} (h0 : P []) (h1 : ∀ f, P [f])
    (h2 : ∀ f x rest, P rest → P (f :: x :: rest)) : ∀ l, P l
  | [] => h0
  | [f] => h1 f
  | f :: x :: rest => h2 f x rest (pair_induction h0 h1 h2 rest)

theorem parseStep_unrecognized (mt : Bool) (conv : String → Int) (f : String)
    (val : Option String) (v : Vars) (h : isRecognized mt f = false) :
    parseStep mt conv f val v = Parse.usage v := by
  simp only [isRecognized, decide_eq_false_iff_not, not_or] at h
  obtain ⟨h1, h2, h3, h4, h5⟩ := h
  simp [parseStep, h1, h2, h3, h4, h5]

theorem parseStep_recognized_none (mt : Bool) (conv : String → Int) (f : String)
    (v : Vars) (h : isRecognized mt f = true) :
    parseStep mt conv f none v = Parse.undefined := by
  simp only [isRecognized, decide_eq_true_eq] at h
  unfold parseStep
  split_ifs <;> simp_all [assign]

theorem parseStep_recognized_some (mt : Bool) (conv : String → Int) (f x : String)
    (v : Vars) (h : isRecognized mt f = true) :
    ∃ v1, parseStep mt conv f (some x) v = Parse.next v1 ∧
      v1.macro_FileName = (if f = "-m" then x else v.macro_FileName) ∧
      v1.OUTPUT_FILENAME = (if f = "-o" then x else v.OUTPUT_FILENAME) ∧
      v1.mainPhantom_FilePath = (if f = "-p" then x else v.mainPhantom_FilePath) ∧
      v1.nThreads = (if f = "-t" then conv x else v.nThreads) ∧
      v1.session = (if f = "-u" then x else v.session) := by
  simp only [isRecognized, decide_eq_true_eq] at h
  unfold parseStep
  split_ifs <;> simp_all [assign]

/-! ## The loop -/

theorem mem_flagTokens_iff (g : String) :
    ∀ args : List String, g ∈ flagTokens args ↔ ∃ k, args[2 * k]? = some g := by
  intro args
  induction args using pair_induction with
  | h0 => simp [flagTokens]
  | h1 f =>
    simp only [flagTokens, List.mem_singleton]
    constructor
    · intro h
      exact ⟨0, by simp [h]⟩
    · rintro ⟨k, hk⟩
      cases k with
      | zero => simpa using hk.symm
      | succ k => simp [Nat.mul_succ] at hk
  | h2 f x rest ih =>
    simp only [flagTokens, List.mem_cons, ih]
    constructor
    · rintro (h | ⟨k, hk⟩)
      · exact ⟨0, by simp [h]⟩
      · exact ⟨k + 1, by simpa [Nat.mul_succ] using hk⟩
    · rintro ⟨k, hk⟩
      cases k with
      | zero => left; simpa using hk.symm
      | succ k => right; exact ⟨k, by simpa [Nat.mul_succ] using hk⟩

theorem parseLoop_pair_unrecognized (mt : Bool) (conv : String → Int) (f x : String)
    (rest : List String) (v : Vars) (h : isRecognized mt f = false) :
    parseLoop mt conv (f :: x :: rest) v = Parse.usage v := by
  simp [parseLoop, parseStep_unrecognized mt conv f (some x) v h]

theorem parseLoop_pair_recognized (mt : Bool) (conv : String → Int) (f x : String)
    (rest : List String) (v : Vars) (h : isRecognized mt f = true) :
    ∃ v1, parseLoop mt conv (f :: x :: rest) v = parseLoop mt conv rest v1 ∧
      v1.macro_FileName = (if f = "-m" then x else v.macro_FileName) ∧
      v1.OUTPUT_FILENAME = (if f = "-o" then x else v.OUTPUT_FILENAME) ∧
      v1.mainPhantom_FilePath = (if f = "-p" then x else v.mainPhantom_FilePath) ∧
      v1.nThreads = (if f = "-t" then conv x else v.nThreads) ∧
      v1.session = (if f = "-u" then x else v.session) := by
  obtain ⟨v1, hstep, hfields⟩ := parseStep_recognized_some mt conv f x v h
  exact ⟨v1, by simp [parseLoop, hstep], hfields⟩

/-- With complete pairs and recognised flags only, the loop runs to its end. -/
theorem parseLoop_next_of (mt : Bool) (conv : String → Int) :
    ∀ (args : List String) (v : Vars), args.length % 2 = 0 →
      (∀ f ∈ flagTokens args, isRecognized mt f = true) →
      ∃ v1, parseLoop mt conv args v = Parse.next v1 := by
  intro args
  induction args using pair_induction with
  | h0 => intro v _ _; exact ⟨v, rfl⟩
  | h1 f => intro v h; simp at h
  | h2 f x rest ih =>
    intro v hlen hall
    have hf : isRecognized mt f = true := hall f (by simp [flagTokens])
    obtain ⟨v1, hloop, -⟩ := parseLoop_pair_recognized mt conv f x rest v hf
    rw [hloop]
    apply ih v1
    · simp only [List.length_cons] at hlen; omega
    · intro g hg
      exact hall g (by simp [flagTokens, hg])

/-- With recognised flags only and a last flag that has no value, the loop reads the
null pointer `argv[argc]`. -/
theorem parseLoop_undefined_of (mt : Bool) (conv : String → Int) :
    ∀ (args : List String) (v : Vars), args.length % 2 = 1 →
      (∀ f ∈ flagTokens args, isRecognized mt f = true) →
      parseLoop mt conv args v = Parse.undefined := by
  intro args
  induction args using pair_induction with
  | h0 => intro v h; simp at h
  | h1 f =>
    intro v _ hall
    exact parseStep_recognized_none mt conv f v (hall f (by simp [flagTokens]))
  | h2 f x rest ih =>
    intro v hlen hall
    have hf : isRecognized mt f = true := hall f (by simp [flagTokens])
    obtain ⟨v1, hloop, -⟩ := parseLoop_pair_recognized mt conv f x rest v hf
    rw [hloop]
    apply ih v1
    · simp only [List.length_cons] at hlen; omega
    · intro g hg
      exact hall g (by simp [flagTokens, hg])

/-- A token in a flag position that is not recognised makes the loop print the usage. -/
theorem parseLoop_usage_of (mt : Bool) (conv : String → Int) :
    ∀ (args : List String) (v : Vars),
      (∃ f ∈ flagTokens args, isRecognized mt f = false) →
      ∃ v1, parseLoop mt conv args v = Parse.usage v1 := by
  intro args
  induction args using pair_induction with
  | h0 => intro v h; simp [flagTokens] at h
  | h1 f =>
    intro v h
    obtain ⟨g, hg, hrec⟩ := h
    simp only [flagTokens, List.mem_singleton] at hg
    subst hg
    exact ⟨v, parseStep_unrecognized mt conv g none v hrec⟩
  | h2 f x rest ih =>
    intro v h
    cases hf : isRecognized mt f with
    | false => exact ⟨v, parseLoop_pair_unrecognized mt conv f x rest v hf⟩
    | true =>
      obtain ⟨v1, hloop, -⟩ := parseLoop_pair_recognized mt conv f x rest v hf
      rw [hloop]
      apply ih v1
      obtain ⟨g, hg, hrec⟩ := h
      simp only [flagTokens, List.mem_cons] at hg
      rcases hg with rfl | hg
      · rw [hf] at hrec; cases hrec
      · exact ⟨g, hg, hrec⟩

/-- When the loop runs to its end, the argument list is made of complete pairs with
recognised flags, and every variable holds the value of the last pair with its flag,
or else the value it had before the loop. -/
theorem parseLoop_next_fields (mt : Bool) (conv : String → Int) :
    ∀ (args : List String) (v v1 : Vars), parseLoop mt conv args v = Parse.next v1 →
      args.length % 2 = 0 ∧ (∀ f ∈ flagTokens args, isRecognized mt f = true) ∧
      v1.macro_FileName = (lastValue "-m" args).getD v.macro_FileName ∧
      v1.OUTPUT_FILENAME = (lastValue "-o" args).getD v.OUTPUT_FILENAME ∧
      v1.mainPhantom_FilePath = (lastValue "-p" args).getD v.mainPhantom_FilePath ∧
      v1.nThreads = ((lastValue "-t" args).map conv).getD v.nThreads ∧
      v1.session = (lastValue "-u" args).getD v.session := by
  intro args
  induction args using pair_induction with
  | h0 =>
    intro v v1 h
    simp only [parseLoop, Parse.next.injEq] at h
    subst h
    simp [flagTokens, lastValue]
  | h1 f =>
    intro v v1 h
    exfalso
    cases hf : isRecognized mt f with
    | false =>
      have := parseStep_unrecognized mt conv f none v hf
      simp [parseLoop, this] at h
    | true =>
      have := parseStep_recognized_none mt conv f v hf
      simp [parseLoop, this] at h
  | h2 f x rest ih =>
    intro v v1 h
    cases hf : isRecognized mt f with
    | false =>
      rw [parseLoop_pair_unrecognized mt conv f x rest v hf] at h
      cases h
    | true =>
      obtain ⟨v2, hloop, h1, h2, h3, h4, h5⟩ := parseLoop_pair_recognized mt conv f x rest v hf
      rw [hloop] at h
      obtain ⟨ilen, iall, i1, i2, i3, i4, i5⟩ := ih v2 v1 h
      refine ⟨by simp only [List.length_cons]; omega, ?_, ?_, ?_, ?_, ?_, ?_⟩
      · intro g hg
        simp only [flagTokens, List.mem_cons] at hg
        rcases hg with rfl | hg
        · exact hf
        · exact iall g hg
      · rw [i1, h1]; simp only [lastValue]
        cases lastValue "-m" rest <;> by_cases hq : f = "-m" <;> simp [hq]
      · rw [i2, h2]; simp only [lastValue]
        cases lastValue "-o" rest <;> by_cases hq : f = "-o" <;> simp [hq]
      · rw [i3, h3]; simp only [lastValue]
        cases lastValue "-p" rest <;> by_cases hq : f = "-p" <;> simp [hq]
      · rw [i4, h4]; simp only [lastValue]
        cases lastValue "-t" rest <;> by_cases hq : f = "-t" <;> simp [hq]
      · rw [i5, h5]; simp only [lastValue]
        cases lastValue "-u" rest <;> by_cases hq : f = "-u" <;> simp [hq]

theorem acceptedPrefix_eq_self (mt : Bool) :
    ∀ args : List String, args.length % 2 = 0 →
      (∀ f ∈ flagTokens args, isRecognized mt f = true) → acceptedPrefix mt args = args := by
  intro args
  induction args using pair_induction with
  | h0 => intro _ _; rfl
  | h1 f => intro h; simp at h
  | h2 f x rest ih =>
    intro hlen hall
    have hf : isRecognized mt f = true := hall f (by simp [flagTokens])
    have hrest : acceptedPrefix mt rest = rest :=
      ih (by simp only [List.length_cons] at hlen; omega)
        (fun g hg => hall g (by simp [flagTokens, hg]))
    simp [acceptedPrefix, hf, hrest]

/-- When the loop prints the usage, some token in a flag position is not recognised, and
`OUTPUT_FILENAME` holds the value of the last `-o` pair before the first such token. -/
theorem parseLoop_usage_fields (mt : Bool) (conv : String → Int) :
    ∀ (args : List String) (v v1 : Vars), parseLoop mt conv args v = Parse.usage v1 →
      (∃ f ∈ flagTokens args, isRecognized mt f = false) ∧
      v1.OUTPUT_FILENAME = (lastValue "-o" (acceptedPrefix mt args)).getD v.OUTPUT_FILENAME := by
  intro args
  induction args using pair_induction with
  | h0 => intro v v1 h; simp [parseLoop] at h
  | h1 f =>
    intro v v1 h
    cases hf : isRecognized mt f with
    | false =>
      have hs := parseStep_unrecognized mt conv f none v hf
      simp only [parseLoop, hs, Parse.usage.injEq] at h
      subst h
      exact ⟨⟨f, by simp [flagTokens], hf⟩, by simp [acceptedPrefix, lastValue]⟩
    | true =>
      have hs := parseStep_recognized_none mt conv f v hf
      simp [parseLoop, hs] at h
  | h2 f x rest ih =>
    intro v v1 h
    cases hf : isRecognized mt f with
    | false =>
      rw [parseLoop_pair_unrecognized mt conv f x rest v hf] at h
      simp only [Parse.usage.injEq] at h
      subst h
      exact ⟨⟨f, by simp [flagTokens], hf⟩, by simp [acceptedPrefix, hf, lastValue]⟩
    | true =>
      obtain ⟨v2, hloop, -, h2, -⟩ := parseLoop_pair_recognized mt conv f x rest v hf
      rw [hloop] at h
      obtain ⟨⟨g, hg, hrec⟩, iout⟩ := ih v2 v1 h
      refine ⟨⟨g, by simp [flagTokens, hg], hrec⟩, ?_⟩
      rw [iout, h2]
      simp only [acceptedPrefix, hf, if_true, lastValue]
      cases lastValue "-o" (acceptedPrefix mt rest) <;> by_cases hq : f = "-o" <;> simp [hq]

/-! ## `main` by cases on the outcome of the parsing -/

theorem main_of_next (mt : Bool) (conv : String → Int) (env : Option String)
    (args : List String) (v : Vars) (h : parseArgs mt conv env args = Parse.next v) :
    main mt conv env args =
      some { status := 0
             trace := setupTrace mt v ++ modeTrace v ++ teardownTrace
             OUTPUT_FILENAME := resolveOutput v } := by
  simp [main, h]

theorem main_of_usage (mt : Bool) (conv : String → Int) (env : Option String)
    (args : List String) (v : Vars) (h : parseArgs mt conv env args = Parse.usage v) :
    main mt conv env args =
      some { status := 1, trace := [Event.printUsage], OUTPUT_FILENAME := v.OUTPUT_FILENAME } := by
  simp [main, h]

/-- A run that returns 0 is one whose arguments were parsed to the end. -/
theorem main_status_zero (mt : Bool) (conv : String → Int) (env : Option String)
    (args : List String) (r : Run) (h : main mt conv env args = some r) (h0 : r.status = 0) :
    ∃ v, parseArgs mt conv env args = Parse.next v ∧
      r.trace = setupTrace mt v ++ modeTrace v ++ teardownTrace ∧
      r.OUTPUT_FILENAME = resolveOutput v := by
  cases hp : parseArgs mt conv env args with
  | next v =>
    rw [main_of_next mt conv env args v hp] at h
    cases h
    exact ⟨v, rfl, rfl, rfl⟩
  | usage v =>
    rw [main_of_usage mt conv env args v hp] at h
    cases h
    simp at h0
  | undefined => simp [main, hp] at h

/-- A run that returns 1 is one whose only event is the printing of the usage. -/
theorem main_status_one (mt : Bool) (conv : String → Int) (env : Option String)
    (args : List String) (r : Run) (h : main mt conv env args = some r) (h1 : r.status = 1) :
    ∃ v, parseArgs mt conv env args = Parse.usage v ∧
      r.trace = [Event.printUsage] ∧ r.OUTPUT_FILENAME = v.OUTPUT_FILENAME := by
  cases hp : parseArgs mt conv env args with
  | next v =>
    rw [main_of_next mt conv env args v hp] at h
    cases h
    simp at h1
  | usage v =>
    rw [main_of_usage mt conv env args v hp] at h
    cases h
    exact ⟨v, rfl, rfl, rfl⟩
  | undefined => simp [main, hp] at h

theorem parseArgs_next (mt : Bool) (conv : String → Int) (env : Option String)
    (args : List String) (v : Vars) (h : parseArgs mt conv env args = Parse.next v) :
    parseLoop mt conv args (initVars env) = Parse.next v ∧ args.length ≤ 10 := by
  unfold parseArgs at h
  cases hl : parseLoop mt conv args (initVars env) with
  | next w =>
    rw [hl] at h
    by_cases hlen : args.length + 1 > 11
    · simp [hlen] at h
    · simp only [hlen, if_false, Parse.next.injEq] at h
      subst h
      exact ⟨rfl, by omega⟩
  | usage w => rw [hl] at h; cases h
  | undefined => rw [hl] at h; cases h

theorem parseArgs_of_loop_next (mt : Bool) (conv : String → Int) (env : Option String)
    (args : List String) (v : Vars) (h : parseLoop mt conv args (initVars env) = Parse.next v) :
    parseArgs mt conv env args =
      if args.length + 1 > 11 then Parse.usage v else Parse.next v := by
  simp [parseArgs, h]

theorem parseArgs_of_loop_usage (mt : Bool) (conv : String → Int) (env : Option String)
    (args : List String) (v : Vars) (h : parseLoop mt conv args (initVars env) = Parse.usage v) :
    parseArgs mt conv env args = Parse.usage v := by
  simp [parseArgs, h]

theorem printUsage_not_mem_run (mt : Bool) (v : Vars) :
    Event.printUsage ∉ setupTrace mt v ++ modeTrace v ++ teardownTrace := by
  unfold setupTrace modeTrace teardownTrace
  split_ifs <;> simp

theorem replace_extension_ne_empty (p : String) : replace_extension p ".out" ≠ "" := by
  intro h
  have hd := congrArg String.data h
  have hl := congrArg List.length hd
  simp [replace_extension] at hl

theorem resolveOutput_ne_empty (v : Vars) : resolveOutput v ≠ "" := by
  unfold resolveOutput
  split_ifs with h1 h2
  · exact replace_extension_ne_empty _
  · decide
  · exact h1

/-- The variables of an accepted run, in terms of the last pair of each flag. -/
theorem accepted_vars (mt : Bool) (conv : String → Int) (env : Option String)
    (args : List String) (v : Vars) (h : parseArgs mt conv env args = Parse.next v) :
    v.macro_FileName = (lastValue "-m" args).getD "" ∧
    v.OUTPUT_FILENAME = (lastValue "-o" args).getD "" ∧
    v.mainPhantom_FilePath = (lastValue "-p" args).getD (initVars env).mainPhantom_FilePath ∧
    v.nThreads = ((lastValue "-t" args).map conv).getD 1 ∧
    v.session = (lastValue "-u" args).getD "tcsh" := by
  obtain ⟨hloop, -⟩ := parseArgs_next mt conv env args v h
  obtain ⟨-, -, h1, h2, h3, h4, h5⟩ := parseLoop_next_fields mt conv args (initVars env) v hloop
  exact ⟨h1, h2, h3, h4, h5⟩

theorem detectorPaths_run (mt : Bool) (v : Vars) :
    detectorPaths (setupTrace mt v ++ modeTrace v ++ teardownTrace) =
      [v.mainPhantom_FilePath] := by
  unfold setupTrace modeTrace teardownTrace
  cases mt <;> split_ifs <;> simp [detectorPaths]

theorem flagTokens_append (l : List String) :
    ∀ pre : List String, pre.length % 2 = 0 →
      flagTokens (pre ++ l) = flagTokens pre ++ flagTokens l := by
  intro pre
  induction pre using pair_induction with
  | h0 => intro _; simp [flagTokens]
  | h1 f => intro h; simp at h
  | h2 f x rest ih =>
    intro h
    have hrest := ih (by simp only [List.length_cons] at h; omega)
    simp [flagTokens, hrest]

theorem lastValue_pair (g f x : String) (rest : List String) :
    lastValue g (f :: x :: rest) =
      match lastValue g rest with
      | some y => some y
      | none => if f = g then some x else none := by
  simp only [lastValue]

theorem lastValue_swap (g f1 x1 f2 x2 : String) (post : List String) (hne : f1 ≠ f2) :
    ∀ pre : List String, pre.length % 2 = 0 →
      lastValue g (pre ++ f2 :: x2 :: f1 :: x1 :: post) =
        lastValue g (pre ++ f1 :: x1 :: f2 :: x2 :: post) := by
  intro pre
  induction pre using pair_induction with
  | h0 =>
    intro _
    simp only [List.nil_append, lastValue]
    cases lastValue g post with
    | some y => rfl
    | none =>
      by_cases h1 : f1 = g
      · have h2 : f2 ≠ g := fun h => hne (h1.trans h.symm)
        simp [h1, h2]
      · by_cases h2 : f2 = g <;> simp [h1, h2]
  | h1 f => intro h; simp at h
  | h2 f x rest ih =>
    intro h
    have hrest := ih (by simp only [List.length_cons] at h; omega)
    rw [List.cons_append, List.cons_append, List.cons_append, List.cons_append,
      lastValue_pair, lastValue_pair, hrest]

theorem flagTokens_eq_map_pairsOf :
    ∀ args : List String, args.length % 2 = 0 →
      flagTokens args = (pairsOf args).map Prod.fst := by
  intro args
  induction args using pair_induction with
  | h0 => intro _; rfl
  | h1 f => intro h; simp at h
  | h2 f x rest ih =>
    intro h
    have hrest := ih (by simp only [List.length_cons] at h; omega)
    simp [flagTokens, pairsOf, hrest]

theorem length_eq_two_mul_pairsOf :
    ∀ args : List String, args.length % 2 = 0 → args.length = 2 * (pairsOf args).length := by
  intro args
  induction args using pair_induction with
  | h0 => intro _; rfl
  | h1 f => intro h; simp at h
  | h2 f x rest ih =>
    intro h
    have hrest := ih (by simp only [List.length_cons] at h; omega)
    simp only [List.length_cons, pairsOf, hrest]
    omega

theorem mem_pairsOf_of_lastValue (g x : String) :
    ∀ args : List String, lastValue g args = some x → (g, x) ∈ pairsOf args := by
  intro args
  induction args using pair_induction with
  | h0 => intro h; simp [lastValue] at h
  | h1 f => intro h; simp [lastValue] at h
  | h2 f y rest ih =>
    intro h
    rw [lastValue_pair] at h
    simp only [pairsOf, List.mem_cons, Prod.mk.injEq]
    cases hl : lastValue g rest with
    | some z =>
      rw [hl] at h
      simp only [Option.some.injEq] at h
      subst h
      exact Or.inr (ih hl)
    | none =>
      rw [hl] at h
      by_cases hfg : f = g
      · simp only [hfg, if_true, Option.some.injEq] at h
        exact Or.inl ⟨hfg.symm, h.symm⟩
      · simp [hfg] at h

/-- When no flag is repeated, the last value of a flag is the value of its only pair. -/
theorem lastValue_of_mem_pairsOf (g x : String) :
    ∀ args : List String, ((pairsOf args).map Prod.fst).Nodup →
      (g, x) ∈ pairsOf args → lastValue g args = some x := by
  intro args
  induction args using pair_induction with
  | h0 => intro _ h; simp [pairsOf] at h
  | h1 f => intro _ h; simp [pairsOf] at h
  | h2 f y rest ih =>
    intro hnodup hmem
    simp only [pairsOf, List.map_cons, List.nodup_cons] at hnodup
    obtain ⟨hf, hrest⟩ := hnodup
    simp only [pairsOf, List.mem_cons, Prod.mk.injEq] at hmem
    rw [lastValue_pair]
    rcases hmem with ⟨hg, hx⟩ | hmem
    · cases hl : lastValue g rest with
      | some z =>
        exfalso
        apply hf
        rw [← hg]
        exact List.mem_map.2 ⟨(g, z), mem_pairsOf_of_lastValue g z rest hl, rfl⟩
      | none => simp [hg, hx]
    · rw [ih hrest hmem]

/-- When no flag is repeated, a permutation of the pairs keeps every last value. -/
theorem lastValue_perm (g : String) (args1 args2 : List String)
    (hperm : (pairsOf args1).Perm (pairsOf args2))
    (hnodup : ((pairsOf args1).map Prod.fst).Nodup) :
    lastValue g args1 = lastValue g args2 := by
  have hnodup2 : ((pairsOf args2).map Prod.fst).Nodup :=
    (List.Perm.nodup_iff (hperm.map Prod.fst)).1 hnodup
  cases h1 : lastValue g args1 with
  | some x =>
    have hmem := hperm.mem_iff.1 (mem_pairsOf_of_lastValue g x args1 h1)
    exact (lastValue_of_mem_pairsOf g x args2 hnodup2 hmem).symm
  | none =>
    cases h2 : lastValue g args2 with
    | some x =>
      have hmem := hperm.mem_iff.2 (mem_pairsOf_of_lastValue g x args2 h2)
      rw [lastValue_of_mem_pairsOf g x args1 hnodup hmem] at h1
      cases h1
    | none => rfl

/-- Two accepted argument lists with the same last value for every flag are parsed to
the same variables. -/
theorem accepted_determined (mt : Bool) (conv : String → Int) (env : Option String)
    (args1 args2 : List String) (v1 v2 : Vars)
    (h1 : parseArgs mt conv env args1 = Parse.next v1)
    (h2 : parseArgs mt conv env args2 = Parse.next v2)
    (hsame : ∀ g, lastValue g args1 = lastValue g args2) : v1 = v2 := by
  obtain ⟨a1, a2, a3, a4, a5⟩ := accepted_vars mt conv env args1 v1 h1
  obtain ⟨b1, b2, b3, b4, b5⟩ := accepted_vars mt conv env args2 v2 h2
  rw [hsame] at a1 a2 a3 a4 a5
  cases v1
  cases v2
  simp_all

/-- Exchanging two neighbouring pairs with different flags keeps an accepted argument
list accepted. -/
theorem accepted_swap (mt : Bool) (conv : String → Int) (env : Option String)
    (pre post : List String) (f1 x1 f2 x2 : String) (v : Vars) (hpre : pre.length % 2 = 0)
    (h : parseArgs mt conv env (pre ++ f1 :: x1 :: f2 :: x2 :: post) = Parse.next v) :
    ∃ w, parseArgs mt conv env (pre ++ f2 :: x2 :: f1 :: x1 :: post) = Parse.next w := by
  obtain ⟨hloop, hlen⟩ := parseArgs_next mt conv env _ v h
  obtain ⟨heven, hall, -⟩ := parseLoop_next_fields mt conv _ (initVars env) v hloop
  have hlen2 : (pre ++ f2 :: x2 :: f1 :: x1 :: post).length =
      (pre ++ f1 :: x1 :: f2 :: x2 :: post).length := by simp
  have hall2 : ∀ f ∈ flagTokens (pre ++ f2 :: x2 :: f1 :: x1 :: post),
      isRecognized mt f = true := by
    intro f hf
    apply hall f
    rw [flagTokens_append _ pre hpre] at hf ⊢
    simp only [flagTokens, List.mem_append, List.mem_cons] at hf ⊢
    tauto
  obtain ⟨w, hw⟩ := parseLoop_next_of mt conv _ (initVars env) (by rw [hlen2]; exact heven) hall2
  refine ⟨w, ?_⟩
  rw [parseArgs_of_loop_next mt conv env _ w hw, if_neg (by rw [hlen2]; omega)]

/-- Permuting the pairs of an accepted argument list in which no flag is repeated gives
an accepted argument list with the same variables. -/
theorem accepted_perm (mt : Bool) (conv : String → Int) (env : Option String)
    (args1 args2 : List String) (v : Vars)
    (h : parseArgs mt conv env args1 = Parse.next v) (heven2 : args2.length % 2 = 0)
    (hperm : (pairsOf args1).Perm (pairsOf args2))
    (hnodup : ((pairsOf args1).map Prod.fst).Nodup) :
    parseArgs mt conv env args2 = Parse.next v := by
  obtain ⟨hloop, hlen⟩ := parseArgs_next mt conv env args1 v h
  obtain ⟨heven, hall, -⟩ := parseLoop_next_fields mt conv args1 (initVars env) v hloop
  have hlen2 : args2.length = args1.length := by
    rw [length_eq_two_mul_pairsOf args1 heven, length_eq_two_mul_pairsOf args2 heven2,
      hperm.length_eq]
  have hall2 : ∀ f ∈ flagTokens args2, isRecognized mt f = true := by
    intro f hf
    apply hall f
    rw [flagTokens_eq_map_pairsOf args2 heven2] at hf
    rw [flagTokens_eq_map_pairsOf args1 heven]
    exact (hperm.map Prod.fst).mem_iff.2 hf
  obtain ⟨w, hw⟩ := parseLoop_next_of mt conv args2 (initVars env) heven2 hall2
  have hw2 : parseArgs mt conv env args2 = Parse.next w := by
    rw [parseArgs_of_loop_next mt conv env args2 w hw, if_neg (by rw [hlen2]; omega)]
  have heq : v = w :=
    accepted_determined mt conv env args1 args2 v w h hw2
      (fun g => lastValue_perm g args1 args2 hperm hnodup)
  rw [hw2, heq]

theorem uiEvents_run (mt : Bool) (v : Vars) :
    uiEvents (setupTrace mt v ++ modeTrace v ++ teardownTrace) = modeTrace v := by
  unfold setupTrace modeTrace teardownTrace
  cases mt <;> split_ifs <;> simp [uiEvents]

theorem batchCommands_run (mt : Bool) (v : Vars) :
    batchCommands (setupTrace mt v ++ modeTrace v ++ teardownTrace) =
      if v.macro_FileName ≠ "" then ["/control/execute " ++ v.macro_FileName] else [] := by
  unfold setupTrace modeTrace teardownTrace batchCommands
  cases mt <;> split_ifs <;> simp [batchCommandsFrom]

theorem sessionStart_mem_run (mt : Bool) (v : Vars) :
    Event.sessionStart ∈ setupTrace mt v ++ modeTrace v ++ teardownTrace ↔
      v.macro_FileName = "" := by
  unfold setupTrace modeTrace teardownTrace
  by_cases hm : v.macro_FileName = "" <;> cases mt <;> simp [hm]

theorem parseArgs_usage (mt : Bool) (conv : String → Int) (env : Option String)
    (args : List String) (v : Vars) (h : parseArgs mt conv env args = Parse.usage v) :
    parseLoop mt conv args (initVars env) = Parse.usage v ∨
      (parseLoop mt conv args (initVars env) = Parse.next v ∧ 10 < args.length) := by
  unfold parseArgs at h
  cases hl : parseLoop mt conv args (initVars env) with
  | next w =>
    rw [hl] at h
    by_cases hlen : args.length + 1 > 11
    · simp only [hlen, if_true, Parse.usage.injEq] at h
      subst h
      exact Or.inr ⟨rfl, by omega⟩
    · simp [hlen] at h
  | usage w =>
    rw [hl] at h
    simp only [Parse.usage.injEq] at h
    subst h
    exact Or.inl rfl
  | undefined => rw [hl] at h; cases h

/-! ## Properties of the usage exit -/

/-- C1: for an argument list made of complete (flag, value) pairs, `main` returns; it
prints the usage and returns 1 exactly when some token in a flag position
(`argv[1]`, `argv[3]`, ...) is not a recognised flag or there are more than 5 pairs,
and otherwise the parsing succeeds and it returns 0 without printing the usage. -/
theorem usage_iff_unrecognized_or_too_many (mt : Bool) (conv : String → Int)
    (env : Option String) (args : List String) (hpairs : args.length % 2 = 0) :
    ∃ r, main mt conv env args = some r ∧
      (((∃ k f, args[2 * k]? = some f ∧ isRecognized mt f = false) ∨ 5 < args.length / 2) ↔
        (r.status = 1 ∧ r.trace = [Event.printUsage])) ∧
      (¬ ((∃ k f, args[2 * k]? = some f ∧ isRecognized mt f = false) ∨ 5 < args.length / 2) ↔
        ((∃ v, parseArgs mt conv env args = Parse.next v) ∧ r.status = 0 ∧
          Event.printUsage ∉ r.trace)) := by
  by_cases hbad : ∃ k f, args[2 * k]? = some f ∧ isRecognized mt f = false
  · -- an unrecognised flag: the loop prints the usage
    obtain ⟨k, f, hk, hf⟩ := hbad
    have hmem : f ∈ flagTokens args := (mem_flagTokens_iff f args).2 ⟨k, hk⟩
    obtain ⟨v1, hloop⟩ := parseLoop_usage_of mt conv args (initVars env) ⟨f, hmem, hf⟩
    have hmain := main_of_usage mt conv env args v1 (parseArgs_of_loop_usage mt conv env args v1 hloop)
    refine ⟨_, hmain, ?_, ?_⟩
    · exact ⟨fun _ => ⟨rfl, rfl⟩, fun _ => Or.inl ⟨k, f, hk, hf⟩⟩
    · constructor
      · intro h; exact absurd (Or.inl ⟨k, f, hk, hf⟩) h
      · rintro ⟨-, h0, -⟩; simp at h0
  · have hall : ∀ f ∈ flagTokens args, isRecognized mt f = true := by
      intro f hf
      obtain ⟨k, hk⟩ := (mem_flagTokens_iff f args).1 hf
      cases hrec : isRecognized mt f with
      | true => rfl
      | false => exact absurd ⟨k, f, hk, hrec⟩ hbad
    obtain ⟨v1, hloop⟩ := parseLoop_next_of mt conv args (initVars env) hpairs hall
    have hargs := parseArgs_of_loop_next mt conv env args v1 hloop
    by_cases hmany : 5 < args.length / 2
    · have hlen : args.length + 1 > 11 := by omega
      rw [if_pos hlen] at hargs
      refine ⟨_, main_of_usage mt conv env args v1 hargs, ?_, ?_⟩
      · exact ⟨fun _ => ⟨rfl, rfl⟩, fun _ => Or.inr hmany⟩
      · constructor
        · intro h; exact absurd (Or.inr hmany) h
        · rintro ⟨-, h0, -⟩; simp at h0
    · have hlen : ¬ args.length + 1 > 11 := by omega
      rw [if_neg hlen] at hargs
      refine ⟨_, main_of_next mt conv env args v1 hargs, ?_, ?_⟩
      · constructor
        · rintro (h | h)
          · exact absurd h hbad
          · exact absurd h hmany
        · rintro ⟨h1, -⟩; simp at h1
      · constructor
        · intro _
          exact ⟨⟨v1, hargs⟩, rfl, printUsage_not_mem_run mt v1⟩
        · intro _ h
          rcases h with h | h
          · exact hbad h
          · exact hmany h

/-- An instance of C1: six complete pairs are one too many, in a multithreaded build. -/
theorem usage_iff_unrecognized_or_too_many_witness :
    ["-m", "a", "-o", "b", "-p", "c", "-t", "2", "-u", "d", "-u", "e"].length % 2 = 0 ∧
    ∃ r, main true (fun _ => 2) none
        ["-m", "a", "-o", "b", "-p", "c", "-t", "2", "-u", "d", "-u", "e"] = some r ∧
      (((∃ k f, ["-m", "a", "-o", "b", "-p", "c", "-t", "2", "-u", "d", "-u", "e"][2 * k]? = some f ∧
            isRecognized true f = false) ∨
          5 < ["-m", "a", "-o", "b", "-p", "c", "-t", "2", "-u", "d", "-u", "e"].length / 2) ↔
        (r.status = 1 ∧ r.trace = [Event.printUsage])) ∧
      (¬ ((∃ k f, ["-m", "a", "-o", "b", "-p", "c", "-t", "2", "-u", "d", "-u", "e"][2 * k]? = some f ∧
            isRecognized true f = false) ∨
          5 < ["-m", "a", "-o", "b", "-p", "c", "-t", "2", "-u", "d", "-u", "e"].length / 2) ↔
        ((∃ v, parseArgs true (fun _ => 2) none
            ["-m", "a", "-o", "b", "-p", "c", "-t", "2", "-u", "d", "-u", "e"] = Parse.next v) ∧
          r.status = 0 ∧ Event.printUsage ∉ r.trace)) :=
  ⟨by decide, usage_iff_unrecognized_or_too_many true (fun _ => 2) none
    ["-m", "a", "-o", "b", "-p", "c", "-t", "2", "-u", "d", "-u", "e"] (by decide)⟩

/-- C2 (the failing input): with the single argument `-m`, the loop body matches the
flag and assigns `macro_FileName` from `argv[2]`, which is the null pointer `argv[argc]`;
`main` neither prints the usage nor returns 1. -/
theorem dangling_recognized_flag_undefined (mt : Bool) (conv : String → Int)
    (env : Option String) :
    main mt conv env ["-m"] = none ∧
    parseLoop mt conv ["-m"] (initVars env) = Parse.undefined := by
  have h : parseLoop mt conv ["-m"] (initVars env) = Parse.undefined :=
    parseLoop_undefined_of mt conv ["-m"] (initVars env) (by decide)
      (by intro f hf; simp only [flagTokens, List.mem_singleton] at hf; subst hf; simp [isRecognized])
  exact ⟨by simp [main, parseArgs, h], h⟩

/-- C6: when `main` accepts its arguments, `OUTPUT_FILENAME` is not empty once line 129
is passed, which is before the run manager is constructed; it is not written again. -/
theorem output_filename_nonempty (mt : Bool) (conv : String → Int) (env : Option String)
    (args : List String) (r : Run) (hrun : main mt conv env args = some r)
    (haccepted : r.status = 0) :
    r.OUTPUT_FILENAME ≠ "" ∧
    (Event.newRunManager ∈ r.trace ∨ Event.newMTRunManager ∈ r.trace) := by
  obtain ⟨v, -, htrace, hout⟩ := main_status_zero mt conv env args r hrun haccepted
  refine ⟨by rw [hout]; exact resolveOutput_ne_empty v, ?_⟩
  rw [htrace]
  unfold setupTrace
  cases mt <;> simp

/-- An instance of C6: both `-o` and `-m` are given the empty string. -/
theorem output_filename_nonempty_witness :
    main false (fun _ => 0) none ["-o", "", "-m", ""] =
      some { status := 0
             trace := setupTrace false (initVars none) ++ modeTrace (initVars none) ++
               teardownTrace
             OUTPUT_FILENAME := "example.out" } ∧
    ("example.out" ≠ "" ∧
      (Event.newRunManager ∈ setupTrace false (initVars none) ++ modeTrace (initVars none) ++
          teardownTrace ∨
        Event.newMTRunManager ∈ setupTrace false (initVars none) ++ modeTrace (initVars none) ++
          teardownTrace)) :=
  ⟨by decide, output_filename_nonempty false (fun _ => 0) none ["-o", "", "-m", ""]
    { status := 0
      trace := setupTrace false (initVars none) ++ modeTrace (initVars none) ++ teardownTrace
      OUTPUT_FILENAME := "example.out" } (by decide) (by decide)⟩

/-! ## Resolution of the output path and of the phantom path -/

/-- C3 (counterexample): the accepted argument list `-m ""` has no `-o` and gives the
macro path `""` with `-m`, yet the output path is `example.out`, not the macro path with
its extension replaced by `.out`, which would be `.out`. -/
theorem derived_output_counterexample :
    (main false (fun _ => 0) none ["-m", ""]).map Run.status = some 0 ∧
    lastValue "-o" ["-m", ""] = none ∧
    lastValue "-m" ["-m", ""] = some "" ∧
    (main false (fun _ => 0) none ["-m", ""]).map Run.OUTPUT_FILENAME = some "example.out" ∧
    replace_extension "" ".out" = ".out" ∧
    (main false (fun _ => 0) none ["-m", ""]).map Run.OUTPUT_FILENAME ≠
      some (replace_extension "" ".out") := by
  decide

/-- C3 (amended): for an accepted argument list without `-o`, if the last `-m` value `M`
is not empty the output path is `M` with its extension replaced by `.out`, and if there
is no `-m` or the last `-m` value is empty the output path is `example.out`. -/
theorem derived_output_without_o (mt : Bool) (conv : String → Int) (env : Option String)
    (args : List String) (r : Run) (hrun : main mt conv env args = some r)
    (haccepted : r.status = 0) (hno : lastValue "-o" args = none) :
    (∀ M, lastValue "-m" args = some M → M ≠ "" →
      r.OUTPUT_FILENAME = replace_extension M ".out") ∧
    (lastValue "-m" args = none ∨ lastValue "-m" args = some "" →
      r.OUTPUT_FILENAME = "example.out") := by
  obtain ⟨v, hv, -, hout⟩ := main_status_zero mt conv env args r hrun haccepted
  obtain ⟨hm, ho, -⟩ := accepted_vars mt conv env args v hv
  rw [hno] at ho
  simp only [Option.getD_none] at ho
  constructor
  · intro M hM hne
    rw [hM] at hm
    simp only [Option.getD_some] at hm
    rw [hout]
    simp [resolveOutput, ho, hm, hne]
  · intro h
    have hempty : v.macro_FileName = "" := by
      rcases h with h | h <;> rw [h] at hm <;> simpa using hm
    rw [hout]
    simp [resolveOutput, ho, hempty]

/-- An instance of C3 (amended): `-m run.mac` gives `run.out`. -/
theorem derived_output_without_o_witness :
    main false (fun _ => 0) none ["-m", "run.mac"] =
      some { status := 0
             trace := setupTrace false { initVars none with macro_FileName := "run.mac" } ++
               modeTrace { initVars none with macro_FileName := "run.mac" } ++ teardownTrace
             OUTPUT_FILENAME := "run.out" } ∧
    "run.out" = replace_extension "run.mac" ".out" :=
  ⟨by decide,
    (derived_output_without_o false (fun _ => 0) none ["-m", "run.mac"]
      { status := 0
        trace := setupTrace false { initVars none with macro_FileName := "run.mac" } ++
          modeTrace { initVars none with macro_FileName := "run.mac" } ++ teardownTrace
        OUTPUT_FILENAME := "run.out" } (by decide) (by decide) (by decide)).1
      "run.mac" (by decide) (by decide)⟩

/-- C4 (counterexample): the accepted argument list `-o "" -m run.mac` gives the output
path `""` with `-o`, yet the resolved output path is `run.out`. -/
theorem explicit_output_counterexample :
    (main false (fun _ => 0) none ["-o", "", "-m", "run.mac"]).map Run.status = some 0 ∧
    lastValue "-o" ["-o", "", "-m", "run.mac"] = some "" ∧
    (main false (fun _ => 0) none ["-o", "", "-m", "run.mac"]).map Run.OUTPUT_FILENAME =
      some "run.out" := by
  decide

/-- C4 (amended): for an accepted argument list whose last `-o` value is `V`: if `V` is
not empty the output path is `V`, whatever the `-m` values and the order of the pairs;
if `V` is empty the output path is derived as if `-o` were absent, from the last `-m`
value when that is not empty and else as `example.out`. -/
theorem explicit_output_wins (mt : Bool) (conv : String → Int) (env : Option String)
    (args : List String) (r : Run) (V : String) (hrun : main mt conv env args = some r)
    (haccepted : r.status = 0) (hV : lastValue "-o" args = some V) :
    (V ≠ "" → r.OUTPUT_FILENAME = V) ∧
    (V = "" →
      (∀ M, lastValue "-m" args = some M → M ≠ "" →
        r.OUTPUT_FILENAME = replace_extension M ".out") ∧
      (lastValue "-m" args = none ∨ lastValue "-m" args = some "" →
        r.OUTPUT_FILENAME = "example.out")) := by
  obtain ⟨v, hv, -, hout⟩ := main_status_zero mt conv env args r hrun haccepted
  obtain ⟨hm, ho, -⟩ := accepted_vars mt conv env args v hv
  rw [hV] at ho
  simp only [Option.getD_some] at ho
  refine ⟨?_, ?_⟩
  · intro hne
    rw [hout]
    simp [resolveOutput, ho, hne]
  · intro hempty
    rw [hempty] at ho
    constructor
    · intro M hM hne
      rw [hM] at hm
      simp only [Option.getD_some] at hm
      rw [hout]
      simp [resolveOutput, ho, hm, hne]
    · intro h
      have hmacro : v.macro_FileName = "" := by
        rcases h with h | h <;> rw [h] at hm <;> simpa using hm
      rw [hout]
      simp [resolveOutput, ho, hmacro]

/-- An instance of C4 (amended): `-o custom.out -m run.mac` gives `custom.out`. -/
theorem explicit_output_wins_witness :
    main false (fun _ => 0) none ["-o", "custom.out", "-m", "run.mac"] =
      some { status := 0
             trace := setupTrace false (initVars none) ++
               [Event.applyCommand "/control/execute run.mac"] ++ teardownTrace
             OUTPUT_FILENAME := "custom.out" } ∧
    (("custom.out" ≠ "" → "custom.out" = "custom.out") ∧
      ("custom.out" = "" →
        (∀ M, lastValue "-m" ["-o", "custom.out", "-m", "run.mac"] = some M → M ≠ "" →
          "custom.out" = replace_extension M ".out") ∧
        (lastValue "-m" ["-o", "custom.out", "-m", "run.mac"] = none ∨
            lastValue "-m" ["-o", "custom.out", "-m", "run.mac"] = some "" →
          "custom.out" = "example.out"))) :=
  ⟨by decide,
    explicit_output_wins false (fun _ => 0) none ["-o", "custom.out", "-m", "run.mac"]
      { status := 0
        trace := setupTrace false (initVars none) ++
          [Event.applyCommand "/control/execute run.mac"] ++ teardownTrace
        OUTPUT_FILENAME := "custom.out" } "custom.out" (by decide) (by decide) (by decide)⟩

/-- C5 (counterexample): with no arguments and `PHANTOM` set to the empty string, the
path given to `DetectorConstruction` is the empty string, not the default. -/
theorem empty_phantom_env_counterexample :
    (main false (fun _ => 0) (some "") []).map Run.status = some 0 ∧
    lastValue "-p" [] = none ∧
    (main false (fun _ => 0) (some "") []).map (fun r => detectorPaths r.trace) = some [""] ∧
    "" ≠ "../../phantoms/AM_MRCP_skin" := by
  decide

/-- C5 (amended): for an accepted argument list, exactly one `DetectorConstruction` is
constructed, with the last `-p` value if there is one, otherwise with the value of
`PHANTOM` if the variable is set (even to the empty string), otherwise with
`../../phantoms/AM_MRCP_skin`. -/
theorem model_path_resolution (mt : Bool) (conv : String → Int) (env : Option String)
    (args : List String) (r : Run) (hrun : main mt conv env args = some r)
    (haccepted : r.status = 0) :
    detectorPaths r.trace =
      [match lastValue "-p" args with
       | some p => p
       | none =>
         match env with
         | some e => e
         | none => "../../phantoms/AM_MRCP_skin"] := by
  obtain ⟨v, hv, htrace, -⟩ := main_status_zero mt conv env args r hrun haccepted
  obtain ⟨-, -, hp, -⟩ := accepted_vars mt conv env args v hv
  rw [htrace, detectorPaths_run, hp]
  cases lastValue "-p" args <;> cases env <;> simp [initVars]

/-- An instance of C5 (amended): `PHANTOM` is set and `-p` is given. -/
theorem model_path_resolution_witness :
    main false (fun _ => 0) (some "/data/AF") ["-p", "mesh/AM"] =
      some { status := 0
             trace := setupTrace false { initVars none with mainPhantom_FilePath := "mesh/AM" } ++
               modeTrace (initVars none) ++ teardownTrace
             OUTPUT_FILENAME := "example.out" } ∧
    detectorPaths (setupTrace false { initVars none with mainPhantom_FilePath := "mesh/AM" } ++
        modeTrace (initVars none) ++ teardownTrace) =
      [match lastValue "-p" ["-p", "mesh/AM"] with
       | some p => p
       | none =>
         match some "/data/AF" with
         | some e => e
         | none => "../../phantoms/AM_MRCP_skin"] :=
  ⟨by decide,
    model_path_resolution false (fun _ => 0) (some "/data/AF") ["-p", "mesh/AM"]
      { status := 0
        trace := setupTrace false { initVars none with mainPhantom_FilePath := "mesh/AM" } ++
          modeTrace (initVars none) ++ teardownTrace
        OUTPUT_FILENAME := "example.out" } (by decide) (by decide)⟩

/-! ## Batch mode or interactive mode -/

/-- C7 (counterexample): the accepted argument lists `-m ""` and `-m run.mac` both
supply a macro path with `-m`, yet the first takes the interactive branch and the second
the batch branch: the choice does not depend solely on whether a macro path was supplied. -/
theorem macro_supplied_counterexample :
    (main false (fun _ => 0) none ["-m", ""]).map Run.status = some 0 ∧
    (main false (fun _ => 0) none ["-m", "run.mac"]).map Run.status = some 0 ∧
    (lastValue "-m" ["-m", ""]).isSome = true ∧
    (lastValue "-m" ["-m", "run.mac"]).isSome = true ∧
    (main false (fun _ => 0) none ["-m", ""]).map (fun r => uiEvents r.trace) =
      some [Event.newUIExecutive "tcsh",
            Event.applyCommand "/control/execute init_vis.mac",
            Event.sessionStart,
            Event.deleteUI] ∧
    (main false (fun _ => 0) none ["-m", "run.mac"]).map (fun r => uiEvents r.trace) =
      some [Event.applyCommand "/control/execute run.mac"] := by
  decide

/-- C7 (amended): for an accepted argument list without `-m`, or whose last `-m` value is
empty, `main` constructs one interactive session of the kind given by the last `-u` value
(`tcsh` by default), applies the fixed start-up command `/control/execute init_vis.mac`
to it, starts it and deletes it, then tears down; no command is applied in batch mode.
For every accepted argument list, the branch taken is decided by the test
`macro_FileName.empty()` alone, where `macro_FileName` is the last `-m` value, or empty
without `-m`: the interactive branch when it is empty, and when it is not, the batch
branch, whose only event on the command interpreter or a session is the command
`/control/execute ` followed by that value. -/
theorem interactive_without_macro (mt : Bool) (conv : String → Int) (env : Option String)
    (args : List String) (r : Run) (hrun : main mt conv env args = some r)
    (haccepted : r.status = 0)
    (hno : lastValue "-m" args = none ∨ lastValue "-m" args = some "")
    (mt2 : Bool) (conv2 : String → Int) (env2 : Option String) (args2 : List String)
    (r2 : Run) (hrun2 : main mt2 conv2 env2 args2 = some r2) (haccepted2 : r2.status = 0) :
    uiEvents r.trace =
      [Event.newUIExecutive ((lastValue "-u" args).getD "tcsh"),
       Event.applyCommand "/control/execute init_vis.mac",
       Event.sessionStart,
       Event.deleteUI] ∧
    (∃ pre, r.trace = pre ++
      [Event.newUIExecutive ((lastValue "-u" args).getD "tcsh"),
       Event.applyCommand "/control/execute init_vis.mac",
       Event.sessionStart,
       Event.deleteUI,
       Event.deleteVisManager,
       Event.deleteRunManager]) ∧
    batchCommands r.trace = [] ∧
    (Event.sessionStart ∈ r2.trace ↔ (lastValue "-m" args2).getD "" = "") ∧
    (batchCommands r2.trace ≠ [] ↔ (lastValue "-m" args2).getD "" ≠ "") ∧
    ((lastValue "-m" args2).getD "" = "" →
      uiEvents r2.trace =
        [Event.newUIExecutive ((lastValue "-u" args2).getD "tcsh"),
         Event.applyCommand "/control/execute init_vis.mac",
         Event.sessionStart,
         Event.deleteUI]) ∧
    ((lastValue "-m" args2).getD "" ≠ "" →
      uiEvents r2.trace =
        [Event.applyCommand ("/control/execute " ++ (lastValue "-m" args2).getD "")]) := by
  obtain ⟨v, hv, htrace, -⟩ := main_status_zero mt conv env args r hrun haccepted
  obtain ⟨hm, -, -, -, hu⟩ := accepted_vars mt conv env args v hv
  have hm0 : v.macro_FileName = "" := by
    rcases hno with h | h <;> rw [h] at hm <;> simpa using hm
  obtain ⟨v2, hv2, htrace2, -⟩ := main_status_zero mt2 conv2 env2 args2 r2 hrun2 haccepted2
  obtain ⟨hm2, -, -, -, hu2⟩ := accepted_vars mt2 conv2 env2 args2 v2 hv2
  have hmode : modeTrace v =
      [Event.newUIExecutive ((lastValue "-u" args).getD "tcsh"),
       Event.applyCommand "/control/execute init_vis.mac",
       Event.sessionStart,
       Event.deleteUI] := by
    simp [modeTrace, hm0, hu]
  refine ⟨?_, ?_, ?_, ?_, ?_, ?_, ?_⟩
  · rw [htrace, uiEvents_run, hmode]
  · refine ⟨setupTrace mt v, ?_⟩
    rw [htrace, hmode]
    simp [teardownTrace]
  · rw [htrace, batchCommands_run]
    simp [hm0]
  · rw [htrace2, sessionStart_mem_run, hm2]
  · rw [htrace2, batchCommands_run, hm2]
    by_cases h : (lastValue "-m" args2).getD "" = "" <;> simp [h]
  · intro h
    rw [htrace2, uiEvents_run]
    rw [h] at hm2
    simp [modeTrace, hm2, hu2]
  · intro h
    rw [htrace2, uiEvents_run]
    have hne : v2.macro_FileName ≠ "" := by rw [hm2]; exact h
    unfold modeTrace
    rw [if_pos hne, hm2]

/-- An instance of C7 (amended): `-u qt` alone, compared with the batch run of
`-m run.mac`. -/
theorem interactive_without_macro_witness :
    main false (fun _ => 0) none ["-u", "qt"] =
      some { status := 0
             trace := setupTrace false (initVars none) ++
               [Event.newUIExecutive "qt", Event.applyCommand "/control/execute init_vis.mac",
                Event.sessionStart, Event.deleteUI] ++ teardownTrace
             OUTPUT_FILENAME := "example.out" } ∧
    main true (fun _ => 0) none ["-m", "run.mac"] =
      some { status := 0
             trace := setupTrace true (initVars none) ++
               [Event.applyCommand "/control/execute run.mac"] ++ teardownTrace
             OUTPUT_FILENAME := "run.out" } ∧
    (uiEvents (setupTrace false (initVars none) ++
        [Event.newUIExecutive "qt", Event.applyCommand "/control/execute init_vis.mac",
         Event.sessionStart, Event.deleteUI] ++ teardownTrace) =
      [Event.newUIExecutive ((lastValue "-u" ["-u", "qt"]).getD "tcsh"),
       Event.applyCommand "/control/execute init_vis.mac",
       Event.sessionStart,
       Event.deleteUI] ∧
    (∃ pre, setupTrace false (initVars none) ++
        [Event.newUIExecutive "qt", Event.applyCommand "/control/execute init_vis.mac",
         Event.sessionStart, Event.deleteUI] ++ teardownTrace = pre ++
      [Event.newUIExecutive ((lastValue "-u" ["-u", "qt"]).getD "tcsh"),
       Event.applyCommand "/control/execute init_vis.mac",
       Event.sessionStart,
       Event.deleteUI,
       Event.deleteVisManager,
       Event.deleteRunManager]) ∧
    batchCommands (setupTrace false (initVars none) ++
        [Event.newUIExecutive "qt", Event.applyCommand "/control/execute init_vis.mac",
         Event.sessionStart, Event.deleteUI] ++ teardownTrace) = [] ∧
    (Event.sessionStart ∈ setupTrace true (initVars none) ++
        [Event.applyCommand "/control/execute run.mac"] ++ teardownTrace ↔
      (lastValue "-m" ["-m", "run.mac"]).getD "" = "") ∧
    (batchCommands (setupTrace true (initVars none) ++
        [Event.applyCommand "/control/execute run.mac"] ++ teardownTrace) ≠ [] ↔
      (lastValue "-m" ["-m", "run.mac"]).getD "" ≠ "") ∧
    ((lastValue "-m" ["-m", "run.mac"]).getD "" = "" →
      uiEvents (setupTrace true (initVars none) ++
          [Event.applyCommand "/control/execute run.mac"] ++ teardownTrace) =
        [Event.newUIExecutive ((lastValue "-u" ["-m", "run.mac"]).getD "tcsh"),
         Event.applyCommand "/control/execute init_vis.mac",
         Event.sessionStart,
         Event.deleteUI]) ∧
    ((lastValue "-m" ["-m", "run.mac"]).getD "" ≠ "" →
      uiEvents (setupTrace true (initVars none) ++
          [Event.applyCommand "/control/execute run.mac"] ++ teardownTrace) =
        [Event.applyCommand
          ("/control/execute " ++ (lastValue "-m" ["-m", "run.mac"]).getD "")])) :=
  ⟨by decide, by decide,
    interactive_without_macro false (fun _ => 0) none ["-u", "qt"]
      { status := 0
        trace := setupTrace false (initVars none) ++
          [Event.newUIExecutive "qt", Event.applyCommand "/control/execute init_vis.mac",
           Event.sessionStart, Event.deleteUI] ++ teardownTrace
        OUTPUT_FILENAME := "example.out" } (by decide) (by decide) (Or.inl (by decide))
      true (fun _ => 0) none ["-m", "run.mac"]
      { status := 0
        trace := setupTrace true (initVars none) ++
          [Event.applyCommand "/control/execute run.mac"] ++ teardownTrace
        OUTPUT_FILENAME := "run.out" } (by decide) (by decide)⟩

/-- C8 (counterexample): the accepted argument list `-m ""` supplies the macro path `""`
with `-m`, yet `main` constructs and starts an interactive session, and the command it
applies is `/control/execute init_vis.mac`, not `/control/execute ` followed by `""`. -/
theorem empty_macro_counterexample :
    (main false (fun _ => 0) none ["-m", ""]).map Run.status = some 0 ∧
    lastValue "-m" ["-m", ""] = some "" ∧
    (main false (fun _ => 0) none ["-m", ""]).map (fun r => uiEvents r.trace) =
      some [Event.newUIExecutive "tcsh",
            Event.applyCommand "/control/execute init_vis.mac",
            Event.sessionStart,
            Event.deleteUI] ∧
    (main false (fun _ => 0) none ["-m", ""]).map (fun r => uiEvents r.trace) ≠
      some [Event.applyCommand ("/control/execute " ++ "")] := by
  decide

/-- C8 (amended): for an accepted argument list whose last `-m` value `M` is not empty,
`main` applies exactly one command, `/control/execute ` followed by `M`, in batch mode,
constructs and starts no interactive session, and goes on to the teardown and status 0.
In every run, accepted or not, a command is applied in batch mode or an interactive
session is constructed, never both. -/
theorem batch_with_macro (mt : Bool) (conv : String → Int) (env : Option String)
    (args : List String) (r : Run) (M : String) (hrun : main mt conv env args = some r)
    (haccepted : r.status = 0) (hM : lastValue "-m" args = some M) (hne : M ≠ "")
    (mt2 : Bool) (conv2 : String → Int) (env2 : Option String) (args2 : List String)
    (r2 : Run) (hrun2 : main mt2 conv2 env2 args2 = some r2) :
    uiEvents r.trace = [Event.applyCommand ("/control/execute " ++ M)] ∧
    batchCommands r.trace = ["/control/execute " ++ M] ∧
    (∃ pre, r.trace = pre ++
      [Event.applyCommand ("/control/execute " ++ M),
       Event.deleteVisManager,
       Event.deleteRunManager]) ∧
    (batchCommands r2.trace = [] ∨
      (Event.sessionStart ∉ r2.trace ∧ ∀ s, Event.newUIExecutive s ∉ r2.trace)) := by
  obtain ⟨v, hv, htrace, -⟩ := main_status_zero mt conv env args r hrun haccepted
  obtain ⟨hm, -⟩ := accepted_vars mt conv env args v hv
  rw [hM] at hm
  simp only [Option.getD_some] at hm
  have hmode : modeTrace v = [Event.applyCommand ("/control/execute " ++ M)] := by
    simp [modeTrace, hm, hne]
  refine ⟨?_, ?_, ?_, ?_⟩
  · rw [htrace, uiEvents_run, hmode]
  · rw [htrace, batchCommands_run]
    simp [hm, hne]
  · refine ⟨setupTrace mt v, ?_⟩
    rw [htrace, hmode]
    simp [teardownTrace]
  · cases hp : parseArgs mt2 conv2 env2 args2 with
    | next w =>
      rw [main_of_next mt2 conv2 env2 args2 w hp] at hrun2
      cases hrun2
      by_cases hw : w.macro_FileName = ""
      · left
        simp only [batchCommands_run]
        simp [hw]
      · right
        show Event.sessionStart ∉ setupTrace mt2 w ++ modeTrace w ++ teardownTrace ∧
          ∀ s, Event.newUIExecutive s ∉ setupTrace mt2 w ++ modeTrace w ++ teardownTrace
        unfold setupTrace modeTrace teardownTrace
        cases mt2 <;> simp [hw]
    | usage w =>
      rw [main_of_usage mt2 conv2 env2 args2 w hp] at hrun2
      cases hrun2
      left
      simp [batchCommands, batchCommandsFrom]
    | undefined => simp [main, hp] at hrun2

/-- An instance of C8 (amended): `-m run.mac`, compared with the run without arguments. -/
theorem batch_with_macro_witness :
    main true (fun _ => 0) none ["-m", "run.mac"] =
      some { status := 0
             trace := setupTrace true (initVars none) ++
               [Event.applyCommand "/control/execute run.mac"] ++ teardownTrace
             OUTPUT_FILENAME := "run.out" } ∧
    main false (fun _ => 0) none [] =
      some { status := 0
             trace := setupTrace false (initVars none) ++ modeTrace (initVars none) ++
               teardownTrace
             OUTPUT_FILENAME := "example.out" } ∧
    (uiEvents (setupTrace true (initVars none) ++
        [Event.applyCommand "/control/execute run.mac"] ++ teardownTrace) =
      [Event.applyCommand ("/control/execute " ++ "run.mac")] ∧
    batchCommands (setupTrace true (initVars none) ++
        [Event.applyCommand "/control/execute run.mac"] ++ teardownTrace) =
      ["/control/execute " ++ "run.mac"] ∧
    (∃ pre, setupTrace true (initVars none) ++
        [Event.applyCommand "/control/execute run.mac"] ++ teardownTrace = pre ++
      [Event.applyCommand ("/control/execute " ++ "run.mac"),
       Event.deleteVisManager,
       Event.deleteRunManager]) ∧
    (batchCommands (setupTrace false (initVars none) ++ modeTrace (initVars none) ++
        teardownTrace) = [] ∨
      (Event.sessionStart ∉ setupTrace false (initVars none) ++ modeTrace (initVars none) ++
          teardownTrace ∧
        ∀ s, Event.newUIExecutive s ∉ setupTrace false (initVars none) ++
          modeTrace (initVars none) ++ teardownTrace))) :=
  ⟨by decide, by decide,
    batch_with_macro true (fun _ => 0) none ["-m", "run.mac"]
      { status := 0
        trace := setupTrace true (initVars none) ++
          [Event.applyCommand "/control/execute run.mac"] ++ teardownTrace
        OUTPUT_FILENAME := "run.out" } "run.mac" (by decide) (by decide) (by decide) (by decide)
      false (fun _ => 0) none []
      { status := 0
        trace := setupTrace false (initVars none) ++ modeTrace (initVars none) ++
          teardownTrace
        OUTPUT_FILENAME := "example.out" } (by decide)⟩

/-! ## Rejected argument lists -/

/-- C9 (counterexample): the argument list `-o x -z y` is rejected with the usage text
and status 1, and `OUTPUT_FILENAME`, empty before the parsing, then holds `x`. -/
theorem rejected_output_counterexample :
    main false (fun _ => 0) none ["-o", "x", "-z", "y"] =
      some { status := 1, trace := [Event.printUsage], OUTPUT_FILENAME := "x" } ∧
    (initVars none).OUTPUT_FILENAME = "" ∧
    "x" ≠ (initVars none).OUTPUT_FILENAME := by
  decide

/-- C9 (amended): in a rejected run the printing of the usage is the only event: no
run manager is constructed, nothing is registered, no command is applied, nothing is
deleted.  `OUTPUT_FILENAME` is not rolled back: it holds the value of the last `-o` pair
among the pairs that come before the first unrecognised token in a flag position (all
the pairs when every flag is recognised and the list is rejected for its length), and it
is still empty without such a pair.  So it is left as it was before the parsing exactly
when there is no such pair or the value of the last one is the empty string. -/
theorem rejected_run (mt : Bool) (conv : String → Int) (env : Option String)
    (args : List String) (r : Run) (hrun : main mt conv env args = some r)
    (hrejected : r.status = 1) :
    r.trace = [Event.printUsage] ∧
    r.OUTPUT_FILENAME = (lastValue "-o" (acceptedPrefix mt args)).getD "" ∧
    (r.OUTPUT_FILENAME = (initVars env).OUTPUT_FILENAME ↔
      (lastValue "-o" (acceptedPrefix mt args) = none ∨
        lastValue "-o" (acceptedPrefix mt args) = some "")) := by
  obtain ⟨v, hv, htrace, hout⟩ := main_status_one mt conv env args r hrun hrejected
  have hvalue : v.OUTPUT_FILENAME = (lastValue "-o" (acceptedPrefix mt args)).getD "" := by
    rcases parseArgs_usage mt conv env args v hv with hloop | ⟨hloop, -⟩
    · exact (parseLoop_usage_fields mt conv args (initVars env) v hloop).2
    · obtain ⟨heven, hall, -, ho, -⟩ := parseLoop_next_fields mt conv args (initVars env) v hloop
      rw [acceptedPrefix_eq_self mt args heven hall]
      exact ho
  have hinit : (initVars env).OUTPUT_FILENAME = "" := rfl
  refine ⟨htrace, by rw [hout, hvalue], ?_⟩
  rw [hout, hvalue, hinit]
  cases lastValue "-o" (acceptedPrefix mt args) with
  | none => simp
  | some x => simp

/-- An instance of C9 (amended): the `-o` pair after the rejected token is not read. -/
theorem rejected_run_witness :
    main false (fun _ => 0) none ["-o", "x", "-z", "y", "-o", "w"] =
      some { status := 1, trace := [Event.printUsage], OUTPUT_FILENAME := "x" } ∧
    ([Event.printUsage] = [Event.printUsage] ∧
      "x" = (lastValue "-o" (acceptedPrefix false ["-o", "x", "-z", "y", "-o", "w"])).getD "" ∧
      ("x" = (initVars none).OUTPUT_FILENAME ↔
        (lastValue "-o" (acceptedPrefix false ["-o", "x", "-z", "y", "-o", "w"]) = none ∨
          lastValue "-o" (acceptedPrefix false ["-o", "x", "-z", "y", "-o", "w"]) =
            some ""))) :=
  ⟨by decide,
    rejected_run false (fun _ => 0) none ["-o", "x", "-z", "y", "-o", "w"]
      { status := 1, trace := [Event.printUsage], OUTPUT_FILENAME := "x" } (by decide)
      (by decide)⟩

/-! ## Repeated flags and the order of the pairs -/

/-- C10: when an argument list is accepted, each variable holds the value of the last
pair with its flag (earlier ones are overwritten) or its default without such a pair.
Exchanging two neighbouring pairs that carry different flags leaves the list accepted
with the same variables, hence the same run: the same macro path, output path, phantom
path, thread count and session kind.  So does any permutation of the pairs of an accepted
list in which no flag is repeated. -/
theorem last_occurrence_wins (mt : Bool) (conv : String → Int) (env : Option String)
    (args : List String) (v : Vars) (haccepted : parseArgs mt conv env args = Parse.next v)
    (pre post : List String) (f1 x1 f2 x2 : String) (w : Vars)
    (hpre : pre.length % 2 = 0) (hne : f1 ≠ f2)
    (haccepted2 : parseArgs mt conv env (pre ++ f1 :: x1 :: f2 :: x2 :: post) = Parse.next w)
    (args1 args2 : List String) (u : Vars)
    (haccepted3 : parseArgs mt conv env args1 = Parse.next u)
    (hpairs : args2.length % 2 = 0)
    (hperm : (pairsOf args1).Perm (pairsOf args2))
    (hdistinct : ((pairsOf args1).map Prod.fst).Nodup) :
    (v.macro_FileName = (lastValue "-m" args).getD "" ∧
      v.OUTPUT_FILENAME = (lastValue "-o" args).getD "" ∧
      v.mainPhantom_FilePath =
        (lastValue "-p" args).getD
          (match env with
           | some e => e
           | none => "../../phantoms/AM_MRCP_skin") ∧
      v.nThreads = ((lastValue "-t" args).map conv).getD 1 ∧
      v.session = (lastValue "-u" args).getD "tcsh") ∧
    (parseArgs mt conv env (pre ++ f2 :: x2 :: f1 :: x1 :: post) = Parse.next w ∧
      main mt conv env (pre ++ f2 :: x2 :: f1 :: x1 :: post) =
        main mt conv env (pre ++ f1 :: x1 :: f2 :: x2 :: post)) ∧
    (parseArgs mt conv env args2 = Parse.next u ∧
      main mt conv env args2 = main mt conv env args1) := by
  have hswap : parseArgs mt conv env (pre ++ f2 :: x2 :: f1 :: x1 :: post) = Parse.next w := by
    obtain ⟨w2, hw2⟩ := accepted_swap mt conv env pre post f1 x1 f2 x2 w hpre haccepted2
    have heq : w2 = w :=
      accepted_determined mt conv env _ _ w2 w hw2 haccepted2
        (fun g => lastValue_swap g f1 x1 f2 x2 post hne pre hpre)
    rw [hw2, heq]
  have hpermuted : parseArgs mt conv env args2 = Parse.next u :=
    accepted_perm mt conv env args1 args2 u haccepted3 hpairs hperm hdistinct
  refine ⟨?_, ⟨hswap, ?_⟩, ⟨hpermuted, ?_⟩⟩
  · have h := accepted_vars mt conv env args v haccepted
    cases env <;> exact h
  · rw [main_of_next mt conv env _ w hswap, main_of_next mt conv env _ w haccepted2]
  · rw [main_of_next mt conv env _ u hpermuted, main_of_next mt conv env _ u haccepted3]

/-- An instance of C10: `-u a -u b -o x`; `-m run.mac -u qt` against `-u qt -m run.mac`;
and `-t 4 -p m -o x` against `-o x -t 4 -p m`. -/
theorem last_occurrence_wins_witness :
    parseArgs true (fun _ => 4) none ["-u", "a", "-u", "b", "-o", "x"] =
      Parse.next { initVars none with session := "b", OUTPUT_FILENAME := "x" } ∧
    parseArgs true (fun _ => 4) none ([] ++ "-m" :: "run.mac" :: "-u" :: "qt" :: []) =
      Parse.next { initVars none with macro_FileName := "run.mac", session := "qt" } ∧
    parseArgs true (fun _ => 4) none ["-t", "4", "-p", "m", "-o", "x"] =
      Parse.next { initVars none with
        nThreads := 4, mainPhantom_FilePath := "m", OUTPUT_FILENAME := "x" } ∧
    ((({ initVars none with session := "b", OUTPUT_FILENAME := "x" } : Vars).macro_FileName =
          (lastValue "-m" ["-u", "a", "-u", "b", "-o", "x"]).getD "" ∧
        ({ initVars none with session := "b", OUTPUT_FILENAME := "x" } : Vars).OUTPUT_FILENAME =
          (lastValue "-o" ["-u", "a", "-u", "b", "-o", "x"]).getD "" ∧
        ({ initVars none with session := "b", OUTPUT_FILENAME := "x" } :
            Vars).mainPhantom_FilePath =
          (lastValue "-p" ["-u", "a", "-u", "b", "-o", "x"]).getD
            (match (none : Option String) with
             | some e => e
             | none => "../../phantoms/AM_MRCP_skin") ∧
        ({ initVars none with session := "b", OUTPUT_FILENAME := "x" } : Vars).nThreads =
          ((lastValue "-t" ["-u", "a", "-u", "b", "-o", "x"]).map (fun _ => 4)).getD 1 ∧
        ({ initVars none with session := "b", OUTPUT_FILENAME := "x" } : Vars).session =
          (lastValue "-u" ["-u", "a", "-u", "b", "-o", "x"]).getD "tcsh") ∧
      (parseArgs true (fun _ => 4) none ([] ++ "-u" :: "qt" :: "-m" :: "run.mac" :: []) =
          Parse.next { initVars none with macro_FileName := "run.mac", session := "qt" } ∧
        main true (fun _ => 4) none ([] ++ "-u" :: "qt" :: "-m" :: "run.mac" :: []) =
          main true (fun _ => 4) none ([] ++ "-m" :: "run.mac" :: "-u" :: "qt" :: [])) ∧
      (parseArgs true (fun _ => 4) none ["-o", "x", "-t", "4", "-p", "m"] =
          Parse.next { initVars none with
            nThreads := 4, mainPhantom_FilePath := "m", OUTPUT_FILENAME := "x" } ∧
        main true (fun _ => 4) none ["-o", "x", "-t", "4", "-p", "m"] =
          main true (fun _ => 4) none ["-t", "4", "-p", "m", "-o", "x"])) :=
  ⟨by decide, by decide, by decide,
    last_occurrence_wins true (fun _ => 4) none ["-u", "a", "-u", "b", "-o", "x"]
      { initVars none with session := "b", OUTPUT_FILENAME := "x" } (by decide)
      [] [] "-m" "run.mac" "-u" "qt"
      { initVars none with macro_FileName := "run.mac", session := "qt" }
      (by decide) (by decide) (by decide)
      ["-t", "4", "-p", "m", "-o", "x"] ["-o", "x", "-t", "4", "-p", "m"]
      { initVars none with nThreads := 4, mainPhantom_FilePath := "m", OUTPUT_FILENAME := "x" }
      (by decide) (by decide) (by decide) (by decide)⟩

end MRCP
